import Mathlib

/-!
Shallow embedding of the wallet-derivation and signer-resolution core of
`src/backend/core/gmx_core/rust/src/main.rs` (crate `gmx_runner`).

The repository code under verification is:
  * `WalletErr` (the error enum),
  * `wallet_from_mnemonic_words` (mnemonic text → keypair),
  * `try_find_signer_txt` (parent-directory discovery of `signer.txt`),
  * `wallet_from_signer_path` and `resolve_wallet` (signer resolution).

External crates (`bip39`, `slip10`, `ed25519_dalek`, `bs58`, Rust `std`)
are embedded as follows: purely structural library functions
(`str::trim`, `str::replace`, `str::split_whitespace`,
`SecretKey::from_bytes`, `bs58::encode`, `BIP32Path::from_str`) are
modelled concretely; the cryptographic primitives with no structural
role in the claims (`Mnemonic::parse_in`, `Seed::new`,
`slip10::derive_key_from_path`, `PublicKey::from`,
`Keypair::from_bytes`) are parameters gathered in `CryptoPrims`, so that
every theorem quantifies over their behaviour. Bytes are `Nat`s taken
mod 256 where it matters; file paths are `String`s; the filesystem seen
by discovery is the chain of ancestors of the current working directory.
-/

set_option autoImplicit false

namespace Gmx

/-- Model of Rust `char::is_whitespace` (the Unicode White_Space set),
used by `str::trim` and `str::split_whitespace`. -/
def rustIsWhitespace (c : Char) : Bool :=
  [0x9, 0xA, 0xB, 0xC, 0xD, 0x20, 0x85, 0xA0, 0x1680,
   0x2000, 0x2001, 0x2002, 0x2003, 0x2004, 0x2005, 0x2006, 0x2007,
   0x2008, 0x2009, 0x200A, 0x2028, 0x2029, 0x202F, 0x205F, 0x3000].contains c.toNat

/-- `trim` on a character list: drop Unicode whitespace from both ends
(model of Rust `str::trim`). -/
def trimList (l : List Char) : List Char :=
  ((l.dropWhile rustIsWhitespace).reverse.dropWhile rustIsWhitespace).reverse

/-- Model of Rust `str::trim`. -/
def rustTrim (s : String) : String :=
  String.mk (trimList s.data)

/-- The character substitution performed by `.replace('\n', " ")`. -/
def nlToSpace (c : Char) : Char :=
  if c = '\n' then ' ' else c

/-- Model of Rust `str::replace('\n', " ")` (each newline becomes one space). -/
def rustReplaceNl (s : String) : String :=
  String.mk (s.data.map nlToSpace)

/-- `main.rs` line 93: `let clean = words.trim().replace('\n', " ");`. -/
def clean_words (words : String) : String :=
  rustReplaceNl (rustTrim words)

/-- Accumulator pass behind `split_whitespace`: split a character list into
maximal runs of non-whitespace characters. -/
def splitWsAux : List Char → List Char → List (List Char)
  | [], acc => if acc.isEmpty then [] else [acc.reverse]
  | c :: rest, acc =>
    if rustIsWhitespace c then
      if acc.isEmpty then splitWsAux rest [] else acc.reverse :: splitWsAux rest []
    else
      splitWsAux rest (c :: acc)

/-- Model of Rust `str::split_whitespace` (non-empty tokens between runs of
Unicode whitespace). -/
def split_whitespace (s : String) : List String :=
  (splitWsAux s.data []).map String.mk

/-- The error enum `WalletErr` of `main.rs` lines 63-73.  Display strings:
`NotFound` = "signer not found", `Unsupported` = "unsupported signer file
format", `BadMnemonic msg` = "invalid mnemonic: msg", `Derive msg` =
"derivation failed: msg". -/
inductive WalletErr where
  | NotFound
  | Unsupported
  | BadMnemonic (msg : String)
  | Derive (msg : String)
  deriving DecidableEq

/-- The `Wallet` struct of `main.rs` lines 57-61: the `ed25519_dalek`
keypair is represented by its 64 bytes (`Keypair::to_bytes`). -/
structure Wallet where
  keypair : List Nat
  pubkey_bs58 : String
  deriving DecidableEq

/-- The curve argument passed to `slip10::derive_key_from_path`
(`main.rs` line 108 always passes `Curve::Ed25519`). -/
inductive Curve where
  | Ed25519
  deriving DecidableEq

/-- The base-58 alphabet used by the `bs58` crate (Bitcoin alphabet). -/
def bs58Alphabet : List Char :=
  ("123456789ABCDEFGHJKLMNPQRSTUVWXYZabcdefghijkmnopqrstuvwxyz").data

/-- Digit of the base-58 alphabet. -/
def b58digit (n : Nat) : Char :=
  bs58Alphabet.getD n ('1')

/-- Big-endian numeric value of a byte string (bytes mod 256). -/
def bytesToNat (l : List Nat) : Nat :=
  l.foldl (fun a b => a * 256 + b % 256) 0

/-- Base-58 digit expansion of a natural number, most significant digit
first; the first argument is recursion fuel (`n` itself suffices). -/
def natToB58Aux : Nat → Nat → List Char
  | 0, _ => []
  | Nat.succ fuel, n =>
    if n = 0 then [] else natToB58Aux fuel (n / 58) ++ [b58digit (n % 58)]

/-- Model of `bs58::encode(..).into_string()`: leading zero bytes become
leading `1` characters, the rest is the base-58 expansion of the value. -/
def bs58_encode (bytes : List Nat) : String :=
  String.mk (List.replicate ((bytes.takeWhile (fun b => b % 256 == 0)).length) ('1')
    ++ natToB58Aux (bytesToNat bytes) (bytesToNat bytes))

/-- Model of `ed25519_dalek::SecretKey::from_bytes`: succeeds exactly on
32-byte inputs, returning those bytes. -/
def SecretKey.from_bytes (b : List Nat) : Except String (List Nat) :=
  if b.length = 32 then Except.ok b
  else Except.error ("signature error: secret key length is wrong")

/-- Split a character list on a separator character (model of Rust
`str::split('/')`; adjacent separators yield empty segments). -/
def splitOnChar (sep : Char) : List Char → List (List Char)
  | [] => [[]]
  | c :: rest =>
    if c = sep then [] :: splitOnChar sep rest
    else
      match splitOnChar sep rest with
      | [] => [[c]]
      | g :: gs => (c :: g) :: gs

/-- Decimal digit value of a character, if it is a digit. -/
def digitVal? (c : Char) : Option Nat :=
  if 48 ≤ c.toNat ∧ c.toNat ≤ 57 then some (c.toNat - 48) else none

/-- Fold decimal digits into a number; fails on a non-digit. -/
def digitsToNatAux : List Char → Nat → Option Nat
  | [], acc => some acc
  | c :: rest, acc =>
    match digitVal? c with
    | none => none
    | some d => digitsToNatAux rest (acc * 10 + d)

/-- Parse a non-empty all-decimal-digit character list as a number. -/
def digitsToNat? (l : List Char) : Option Nat :=
  if l.isEmpty then none else digitsToNatAux l 0

/-- `2^31`, the hardened-index offset of BIP-32. -/
def hardenedOffset : Nat := 2147483648

/-- Parse one BIP-32 path component: decimal digits, an optional trailing
apostrophe marking a hardened index. -/
def parseComponent (seg : List Char) : Except String Nat :=
  if seg.getLast? = some ('\x27') then
    match digitsToNat? seg.dropLast with
    | some n =>
      if n < hardenedOffset then Except.ok (n + hardenedOffset)
      else Except.error ("index out of range")
    | none => Except.error ("invalid path component")
  else
    match digitsToNat? seg with
    | some n =>
      if n < hardenedOffset then Except.ok n
      else Except.error ("index out of range")
    | none => Except.error ("invalid path component")

/-- Model of `slip10::BIP32Path::from_str` (the standard BIP-32 path
grammar: a leading `m`, then `/`-separated components, an apostrophe
marking a hardened index). -/
def BIP32Path_from_str (s : String) : Except String (List Nat) :=
  match splitOnChar ('/') s.data with
  | [] => Except.error ("empty derivation path")
  | root :: comps =>
    if root = ['m'] then comps.mapM parseComponent
    else Except.error ("derivation path must start with m")

/-- The hardcoded derivation-path constant of `main.rs` line 105:
`m/44'/501'/0'/0'` (apostrophes written as `\x27`). -/
def solanaPathStr : String := "m/44\x27/501\x27/0\x27/0\x27"

/-- The value `BIP32Path_from_str` gives to `solanaPathStr`: four hardened
indices 44, 501, 0, 0. -/
def solanaPath : List Nat :=
  [2147483692, 2147484149, 2147483648, 2147483648]

/-- The external cryptographic primitives called by
`wallet_from_mnemonic_words`, as parameters: `Mnemonic::parse_in`
(a parsed mnemonic is its word list), `Seed::new`,
`slip10::derive_key_from_path` (yielding the 32 bytes of `derived.key`),
`PublicKey::from` (yielding the 32 bytes of `public.to_bytes()`),
`Keypair::from_bytes` (yielding the keypair's 64 bytes), and the fixed
English wordlist the parser validates against. -/
structure CryptoPrims where
  parse_in : String → Except String (List String)
  seed_new : List String → String → List Nat
  derive_key_from_path : List Nat → Curve → List Nat → Except String (List Nat)
  public_from : List Nat → List Nat
  keypair_from_bytes : List Nat → Except String (List Nat)
  wordlist : List String

/-- The part of `wallet_from_mnemonic_words` after the word-count check
(`main.rs` lines 101-120): parse, seed, path, SLIP-10 derivation, key
assembly, base-58 encoding. -/
def derivePipeline (C : CryptoPrims) (clean : String) : Except WalletErr Wallet :=
  match C.parse_in clean with
  | Except.error e => Except.error (WalletErr.BadMnemonic e)
  | Except.ok mnemonic =>
    match BIP32Path_from_str solanaPathStr with
    | Except.error e => Except.error (WalletErr.Derive e)
    | Except.ok path =>
      match C.derive_key_from_path (C.seed_new mnemonic ("")) Curve.Ed25519 path with
      | Except.error e => Except.error (WalletErr.Derive e)
      | Except.ok derived =>
        match SecretKey.from_bytes derived with
        | Except.error e => Except.error (WalletErr.Derive e)
        | Except.ok secret =>
          match C.keypair_from_bytes (secret ++ C.public_from secret) with
          | Except.error e => Except.error (WalletErr.Derive e)
          | Except.ok kp => Except.ok (Wallet.mk kp (bs58_encode (C.public_from secret)))

/-- `wallet_from_mnemonic_words` (`main.rs` lines 92-121): normalize,
check the word count, then run the derivation pipeline. -/
def wallet_from_mnemonic_words (C : CryptoPrims) (words : String) :
    Except WalletErr Wallet :=
  let clean := clean_words words
  let wc := (split_whitespace clean).length
  if wc ≠ 12 ∧ wc ≠ 24 then
    Except.error (WalletErr.BadMnemonic
      (("expected 12 or 24 words, got ") ++ toString wc))
  else derivePipeline C clean

/-- The chain of ancestor directories of the current working directory:
directory `i` is `i` parent levels above the start, `root` is the index of
the filesystem root (which has no parent), and `hasSigner i` says whether
directory `i` contains a file named `signer.txt`. -/
structure FsChain where
  root : Nat
  hasSigner : Nat → Bool

/-- The loop body of `try_find_signer_txt` (`main.rs` lines 82-88): check
the current directory, then move to the parent; fail when the fuel runs
out or the root has no parent. -/
def try_find_aux (fs : FsChain) : Nat → Nat → Option Nat
  | 0, _ => none
  | Nat.succ fuel, i =>
    if fs.hasSigner i then some i
    else if i < fs.root then try_find_aux fs fuel (i + 1)
    else none

/-- `try_find_signer_txt` (`main.rs` lines 79-90): walk up at most 6
directories from the start, returning the level at which `signer.txt` was
found. -/
def try_find_signer_txt (fs : FsChain) : Option Nat :=
  try_find_aux fs 6 0

/-- The filesystem as the resolver sees it: the ancestor chain used by
discovery, the path string of `signer.txt` at each level (`cur.join`),
and the result of reading any path (`none` = unreadable/missing). -/
structure Fs where
  chain : FsChain
  signerPathAt : Nat → String
  readFile : String → Option String

/-- `read_text` (`main.rs` lines 75-77). -/
def read_text (fs : Fs) (p : String) : Option String :=
  fs.readFile p

/-- `wallet_from_signer_path` (`main.rs` lines 123-128): a failed read
becomes `WalletErr::NotFound`, otherwise the contents go to the
mnemonic deriver. -/
def wallet_from_signer_path (fs : Fs) (C : CryptoPrims) (p : String) :
    Except WalletErr Wallet :=
  match read_text fs p with
  | none => Except.error WalletErr.NotFound
  | some content => wallet_from_mnemonic_words C content

/-- `resolve_wallet` (`main.rs` lines 130-139): an explicit `--signer`
path wins; otherwise discovery runs; otherwise `NotFound`. -/
def resolve_wallet (fs : Fs) (C : CryptoPrims) (signer_flag : Option String) :
    Except WalletErr Wallet :=
  match signer_flag with
  | some p => wallet_from_signer_path fs C p
  | none =>
    match try_find_signer_txt fs.chain with
    | some i => wallet_from_signer_path fs C (fs.signerPathAt i)
    | none => Except.error WalletErr.NotFound

/-- A sample instantiation of the external primitives: every phrase
parses, derivation yields the zero key.  Used only to exercise theorems
on concrete inputs. -/
def samplePrims : CryptoPrims :=
  { parse_in := fun s => Except.ok (split_whitespace s),
    seed_new := fun _ _ => List.replicate 64 0,
    derive_key_from_path := fun _ _ _ => Except.ok (List.replicate 32 0),
    public_from := fun _ => List.replicate 32 0,
    keypair_from_bytes := fun b => Except.ok b,
    wordlist := [] }

/-- A sample instantiation whose mnemonic parser rejects every input,
exercising the validation error paths on concrete inputs. -/
def rejectingPrims : CryptoPrims :=
  { samplePrims with parse_in := fun _ => Except.error ("word not in list") }

/-- Complete characterization of the discovery loop: with `fuel` checks
remaining and the cursor at level `i`, the loop returns level `j` exactly
when `j` is within the fuel window, `signer.txt` is there, and every
closer level both lacks the file and has a parent to move to. -/
theorem try_find_aux_eq_some_iff (fs : FsChain) :
    ∀ (fuel i j : Nat), try_find_aux fs fuel i = some j ↔
      (i ≤ j ∧ j < i + fuel ∧ fs.hasSigner j = true ∧
        ∀ k, i ≤ k → k < j → (fs.hasSigner k = false ∧ k < fs.root)) := by
  intro fuel
  induction fuel with
  | zero =>
    intro i j
    simp only [try_find_aux]
    constructor
    · intro h; exact absurd h (by simp)
    · intro h; omega
  | succ fuel ih =>
    intro i j
    simp only [try_find_aux]
    by_cases hsig : fs.hasSigner i
    · simp only [hsig, if_true]
      constructor
      · intro h
        have hj : j = i := by
          have := Option.some.inj h; omega
        subst hj
        exact ⟨Nat.le_refl _, by omega, hsig, fun k hk1 hk2 => by omega⟩
      · intro ⟨h1, h2, h3, h4⟩
        have hj : j = i := by
          by_contra hne
          have hlt : i < j := by omega
          have := (h4 i (Nat.le_refl _) hlt).1
          rw [hsig] at this
          exact absurd this (by simp)
        subst hj; rfl
    · have hsigf : fs.hasSigner i = false := by
        simpa using hsig
      simp only [hsigf, if_false, Bool.false_eq_true]
      by_cases hroot : i < fs.root
      · simp only [hroot, if_true]
        rw [ih (i + 1) j]
        constructor
        · intro ⟨h1, h2, h3, h4⟩
          refine ⟨by omega, by omega, h3, fun k hk1 hk2 => ?_⟩
          by_cases hk : k = i
          · subst hk; exact ⟨hsigf, hroot⟩
          · exact h4 k (by omega) hk2
        · intro ⟨h1, h2, h3, h4⟩
          have hne : j ≠ i := by
            intro he; subst he; rw [h3] at hsigf; exact absurd hsigf (by simp)
          exact ⟨by omega, by omega, h3, fun k hk1 hk2 => h4 k (by omega) hk2⟩
      · simp only [hroot, if_false]
        constructor
        · intro h; exact absurd h (by simp)
        · intro ⟨h1, h2, h3, h4⟩
          by_cases hj : j = i
          · subst hj; rw [h3] at hsigf; exact absurd hsigf (by simp)
          · have := (h4 i (Nat.le_refl _) (by omega)).2
            omega

/-- The loop returns `none` exactly when no level qualifies. -/
theorem try_find_aux_eq_none_iff (fs : FsChain) (fuel i : Nat) :
    try_find_aux fs fuel i = none ↔
      ∀ j, ¬(i ≤ j ∧ j < i + fuel ∧ fs.hasSigner j = true ∧
        ∀ k, i ≤ k → k < j → (fs.hasSigner k = false ∧ k < fs.root)) := by
  constructor
  · intro h j hj
    rw [← try_find_aux_eq_some_iff fs fuel i j] at hj
    rw [h] at hj
    exact absurd hj (by simp)
  · intro h
    cases hv : try_find_aux fs fuel i with
    | none => rfl
    | some j =>
      rw [try_find_aux_eq_some_iff fs fuel i j] at hv
      exact absurd hv (h j)

/-- When discovery comes back empty, `resolve_wallet` without an explicit
path fails with `WalletErr::NotFound`. -/
theorem resolve_wallet_none_of_discovery_none (fs : Fs) (C : CryptoPrims)
    (h : try_find_signer_txt fs.chain = none) :
    resolve_wallet fs C none = Except.error WalletErr.NotFound := by
  simp [resolve_wallet, h]

/-- C2: automatic signer discovery checks at most 6 directories inclusive
of the start: a signer file at the starting directory is found; with the
file only 6 parent levels up, discovery fails and resolution returns
`NotFound`; with the file 5 levels up it is found; when no directory up
to the root holds the file, resolution returns `NotFound`; and any found
level is at most 5 parents above the start. -/
theorem discovery_budget :
    (∀ fs : FsChain, fs.hasSigner 0 = true → try_find_signer_txt fs = some 0)
  ∧ (∀ (fs : Fs) (C : CryptoPrims), (∀ i, fs.chain.hasSigner i = (i == 6)) →
      6 ≤ fs.chain.root →
      try_find_signer_txt fs.chain = none ∧
      resolve_wallet fs C none = Except.error WalletErr.NotFound)
  ∧ (∀ fs : FsChain, (∀ i, fs.hasSigner i = (i == 5)) → 5 ≤ fs.root →
      try_find_signer_txt fs = some 5)
  ∧ (∀ (fs : Fs) (C : CryptoPrims), (∀ i, i ≤ fs.chain.root → fs.chain.hasSigner i = false) →
      try_find_signer_txt fs.chain = none ∧
      resolve_wallet fs C none = Except.error WalletErr.NotFound)
  ∧ (∀ (fs : FsChain) (j : Nat), try_find_signer_txt fs = some j → j ≤ 5) := by
  refine ⟨?_, ?_, ?_, ?_, ?_⟩
  · intro fs h
    unfold try_find_signer_txt
    rw [try_find_aux_eq_some_iff]
    exact ⟨Nat.le_refl _, by omega, h, fun k hk1 hk2 => by omega⟩
  · intro fs C h hroot
    have hnone : try_find_signer_txt fs.chain = none := by
      unfold try_find_signer_txt
      rw [try_find_aux_eq_none_iff]
      intro j ⟨h1, h2, h3, h4⟩
      rw [h j] at h3
      have : j = 6 := by simpa using h3
      omega
    exact ⟨hnone, resolve_wallet_none_of_discovery_none fs C hnone⟩
  · intro fs h hroot
    unfold try_find_signer_txt
    rw [try_find_aux_eq_some_iff]
    refine ⟨by omega, by omega, by rw [h 5]; rfl, fun k hk1 hk2 => ?_⟩
    constructor
    · rw [h k]; simp; omega
    · omega
  · intro fs C h
    have hnone : try_find_signer_txt fs.chain = none := by
      unfold try_find_signer_txt
      rw [try_find_aux_eq_none_iff]
      intro j ⟨h1, h2, h3, h4⟩
      by_cases hj : j ≤ fs.chain.root
      · rw [h j hj] at h3; exact absurd h3 (by simp)
      · have := (h4 fs.chain.root (by omega) (by omega)).2
        omega
    exact ⟨hnone, resolve_wallet_none_of_discovery_none fs C hnone⟩
  · intro fs j h
    unfold try_find_signer_txt at h
    rw [try_find_aux_eq_some_iff] at h
    omega

/-- Chain whose only `signer.txt` sits `n` parent levels above the start,
with the root far away. -/
def chainAt (n : Nat) : FsChain :=
  FsChain.mk 10 (fun i => i == n)

/-- Filesystem built over `chainAt n`, with nothing readable. -/
def fsOnly (n : Nat) : Fs :=
  Fs.mk (chainAt n) (fun _ => ("")) (fun _ => none)

/-- Filesystem whose root is 3 levels up and which holds no signer file. -/
def fsNone : Fs :=
  Fs.mk (FsChain.mk 3 (fun _ => false)) (fun _ => ("")) (fun _ => none)

/-- Witness for C2 at concrete filesystems: found at the start, missed at
6 levels, found at 5 levels, missed when the root intervenes. -/
theorem discovery_budget_witness :
    try_find_signer_txt (chainAt 0) = some 0
  ∧ resolve_wallet (fsOnly 6) samplePrims none = Except.error WalletErr.NotFound
  ∧ try_find_signer_txt (chainAt 5) = some 5
  ∧ resolve_wallet fsNone samplePrims none = Except.error WalletErr.NotFound := by
  refine ⟨discovery_budget.1 (chainAt 0) (by decide),
    (discovery_budget.2.1 (fsOnly 6) samplePrims (fun i => rfl) (by decide)).2,
    discovery_budget.2.2.1 (chainAt 5) (fun i => rfl) (by decide),
    (discovery_budget.2.2.2.1 fsNone samplePrims (fun i _ => rfl)).2⟩

/-- C10: discovery returns the directory closest to the start: a returned
level holds the file while every closer level does not, and conversely a
level within budget holding the file, with no closer holder, is returned
even when farther directories also hold the file. -/
theorem discovery_nearest_first :
    (∀ (fs : FsChain) (j : Nat), try_find_signer_txt fs = some j →
      fs.hasSigner j = true ∧ ∀ i, i < j → fs.hasSigner i = false)
  ∧ (∀ (fs : FsChain) (j : Nat), j ≤ 5 → j ≤ fs.root → fs.hasSigner j = true →
      (∀ i, i < j → fs.hasSigner i = false) → try_find_signer_txt fs = some j) := by
  constructor
  · intro fs j h
    unfold try_find_signer_txt at h
    rw [try_find_aux_eq_some_iff] at h
    exact ⟨h.2.2.1, fun i hi => (h.2.2.2 i (by omega) hi).1⟩
  · intro fs j hj hroot hsig hbelow
    unfold try_find_signer_txt
    rw [try_find_aux_eq_some_iff]
    exact ⟨by omega, by omega, hsig, fun k hk1 hk2 => ⟨hbelow k hk2, by omega⟩⟩

/-- Chain holding `signer.txt` at levels 2 and 4. -/
def chainTwoFour : FsChain :=
  FsChain.mk 10 (fun i => i == 2 || i == 4)

/-- Witness for C10: with the file at levels 2 and 4, discovery returns
level 2, the closer one. -/
theorem discovery_nearest_first_witness :
    try_find_signer_txt chainTwoFour = some 2 := by
  refine discovery_nearest_first.2 chainTwoFour 2 (by omega) (by decide) (by decide) ?_
  intro i hi
  interval_cases i <;> rfl

/-- The hardcoded path constant parses to the four hardened indices
44, 501, 0, 0. -/
theorem solanaPath_parses : BIP32Path_from_str solanaPathStr = Except.ok solanaPath := rfl

/-- A word count other than 12 and 24 makes `wallet_from_mnemonic_words`
return `BadMnemonic` with the count in the message. -/
theorem wallet_wc_error (C : CryptoPrims) (words : String)
    (h1 : (split_whitespace (clean_words words)).length ≠ 12)
    (h2 : (split_whitespace (clean_words words)).length ≠ 24) :
    wallet_from_mnemonic_words C words = Except.error (WalletErr.BadMnemonic
      (("expected 12 or 24 words, got ")
        ++ toString (split_whitespace (clean_words words)).length)) := by
  unfold wallet_from_mnemonic_words
  rw [if_pos ⟨h1, h2⟩]

/-- A word count of 12 or 24 passes the check: the result is that of the
derivation pipeline on the cleaned text. -/
theorem wallet_wc_pass (C : CryptoPrims) (words : String)
    (h : (split_whitespace (clean_words words)).length = 12 ∨
      (split_whitespace (clean_words words)).length = 24) :
    wallet_from_mnemonic_words C words = derivePipeline C (clean_words words) := by
  unfold wallet_from_mnemonic_words
  rw [if_neg]
  intro hcon
  rcases h with h | h
  · exact hcon.1 h
  · exact hcon.2 h

/-- When the word count passes but the external parser rejects the cleaned
text, the result is `BadMnemonic` with the parser's message. -/
theorem wallet_parse_error (C : CryptoPrims) (words m : String)
    (hwc : (split_whitespace (clean_words words)).length = 12 ∨
      (split_whitespace (clean_words words)).length = 24)
    (hm : C.parse_in (clean_words words) = Except.error m) :
    wallet_from_mnemonic_words C words = Except.error (WalletErr.BadMnemonic m) := by
  rw [wallet_wc_pass C words hwc]
  unfold derivePipeline
  rw [hm]

/-- C4: an explicit signer path is used unconditionally: resolution with
an explicit path is exactly `wallet_from_signer_path` on it, does not
depend on the discovery chain at all, and when the explicit path reads to
some contents the keypair is derived from those contents, whatever a
discoverable default file may hold. -/
theorem explicit_path_precedence :
    (∀ (fs : Fs) (C : CryptoPrims) (p : String),
      resolve_wallet fs C (some p) = wallet_from_signer_path fs C p)
  ∧ (∀ (fs fs2 : Fs) (C : CryptoPrims) (p : String), fs.readFile = fs2.readFile →
      resolve_wallet fs C (some p) = resolve_wallet fs2 C (some p))
  ∧ (∀ (fs : Fs) (C : CryptoPrims) (p content : String), fs.readFile p = some content →
      resolve_wallet fs C (some p) = wallet_from_mnemonic_words C content) := by
  refine ⟨fun fs C p => rfl, ?_, ?_⟩
  · intro fs fs2 C p h
    simp [resolve_wallet, wallet_from_signer_path, read_text, h]
  · intro fs C p content h
    simp [resolve_wallet, wallet_from_signer_path, read_text, h]

/-- Twelve fixed lowercase words, standing for an explicit-path mnemonic. -/
def twelveWordsA : String :=
  "alpha bravo charlie delta echo foxtrot golf hotel india juliett kilo lima"

/-- Twelve different fixed words, standing for a discovered-file mnemonic. -/
def twelveWordsB : String :=
  "mike november oscar papa quebec romeo sierra tango uniform victor whiskey xray"

/-- A filesystem where `signer.txt` is discoverable at the starting
directory with contents `twelveWordsB`, while the explicit path reads to
`twelveWordsA`. -/
def fsBoth : Fs :=
  Fs.mk (FsChain.mk 10 (fun _ => true)) (fun _ => ("discovered"))
    (fun p => if p = ("explicit") then some twelveWordsA else some twelveWordsB)

/-- Witness for C4: with both an explicit path and a discoverable default
present and holding different mnemonics, the explicit path's mnemonic is
the one derived. -/
theorem explicit_path_precedence_witness :
    resolve_wallet fsBoth samplePrims (some ("explicit"))
      = wallet_from_mnemonic_words samplePrims twelveWordsA :=
  explicit_path_precedence.2.2 fsBoth samplePrims ("explicit") twelveWordsA (by decide)

/-- C6: an explicit signer path whose read fails makes resolution return
`WalletErr::NotFound` (the read failure is folded into `NotFound`, not a
separate I/O error kind). -/
theorem explicit_path_read_failure_not_found :
    ∀ (fs : Fs) (C : CryptoPrims) (p : String), fs.readFile p = none →
      resolve_wallet fs C (some p) = Except.error WalletErr.NotFound := by
  intro fs C p h
  simp [resolve_wallet, wallet_from_signer_path, read_text, h]

/-- Witness for C6: a concrete filesystem where no path is readable. -/
theorem explicit_path_read_failure_not_found_witness :
    resolve_wallet fsNone samplePrims (some ("missing"))
      = Except.error WalletErr.NotFound :=
  explicit_path_read_failure_not_found fsNone samplePrims ("missing") rfl

/-- The derivation pipeline only ever produces `ok`, `BadMnemonic` or
`Derive`: the `Unsupported` variant is not among its outcomes. -/
theorem derivePipeline_ne_unsupported (C : CryptoPrims) (clean : String) :
    derivePipeline C clean ≠ Except.error WalletErr.Unsupported := by
  intro h
  unfold derivePipeline at h
  rw [solanaPath_parses] at h
  cases hp : C.parse_in clean with
  | error e => rw [hp] at h; simp at h
  | ok mnemonic =>
    rw [hp] at h
    simp only [] at h
    cases hd : C.derive_key_from_path (C.seed_new mnemonic ("")) Curve.Ed25519 solanaPath with
    | error e => rw [hd] at h; simp at h
    | ok derived =>
      rw [hd] at h
      simp only [] at h
      cases hs : SecretKey.from_bytes derived with
      | error e => rw [hs] at h; simp at h
      | ok secret =>
        rw [hs] at h
        simp only [] at h
        cases hk : C.keypair_from_bytes (secret ++ C.public_from secret) with
        | error e => rw [hk] at h; simp at h
        | ok kp => rw [hk] at h; simp at h

/-- `wallet_from_mnemonic_words` never returns `Unsupported`. -/
theorem wallet_from_mnemonic_words_ne_unsupported (C : CryptoPrims) (words : String) :
    wallet_from_mnemonic_words C words ≠ Except.error WalletErr.Unsupported := by
  intro h
  by_cases hwc : (split_whitespace (clean_words words)).length ≠ 12 ∧
      (split_whitespace (clean_words words)).length ≠ 24
  · rw [wallet_wc_error C words hwc.1 hwc.2] at h
    simp_all
  · have hpass : (split_whitespace (clean_words words)).length = 12 ∨
        (split_whitespace (clean_words words)).length = 24 := by omega
    rw [wallet_wc_pass C words hpass] at h
    exact derivePipeline_ne_unsupported C (clean_words words) h

/-- C9: non-mnemonic file contents fall through to mnemonic validation:
any resolved file whose contents fail the word count or the parser yields
a `BadMnemonic` error, and the `Unsupported` variant is returned by no
operation (`wallet_from_mnemonic_words`, `wallet_from_signer_path`,
`resolve_wallet`). -/
theorem unsupported_variant_unreachable :
    (∀ (C : CryptoPrims) (w : String),
      wallet_from_mnemonic_words C w ≠ Except.error WalletErr.Unsupported)
  ∧ (∀ (fs : Fs) (C : CryptoPrims) (p : String),
      wallet_from_signer_path fs C p ≠ Except.error WalletErr.Unsupported)
  ∧ (∀ (fs : Fs) (C : CryptoPrims) (flag : Option String),
      resolve_wallet fs C flag ≠ Except.error WalletErr.Unsupported)
  ∧ (∀ (fs : Fs) (C : CryptoPrims) (p content : String),
      fs.readFile p = some content →
      (((split_whitespace (clean_words content)).length ≠ 12 ∧
          (split_whitespace (clean_words content)).length ≠ 24) ∨
        (∃ m, C.parse_in (clean_words content) = Except.error m)) →
      ∃ msg, wallet_from_signer_path fs C p = Except.error (WalletErr.BadMnemonic msg)) := by
  have hsp : ∀ (fs : Fs) (C : CryptoPrims) (p : String),
      wallet_from_signer_path fs C p ≠ Except.error WalletErr.Unsupported := by
    intro fs C p h
    unfold wallet_from_signer_path at h
    split at h
    · simp_all
    · exact wallet_from_mnemonic_words_ne_unsupported C _ h
  refine ⟨fun C w => wallet_from_mnemonic_words_ne_unsupported C w, hsp, ?_, ?_⟩
  · intro fs C flag h
    unfold resolve_wallet at h
    split at h
    · exact hsp fs C _ h
    · split at h
      · exact hsp fs C _ h
      · simp_all
  · intro fs C p content hread hbad
    have hres : wallet_from_signer_path fs C p = wallet_from_mnemonic_words C content := by
      simp [wallet_from_signer_path, read_text, hread]
    by_cases hwc : (split_whitespace (clean_words content)).length ≠ 12 ∧
        (split_whitespace (clean_words content)).length ≠ 24
    · exact ⟨_, by rw [hres, wallet_wc_error C content hwc.1 hwc.2]⟩
    · have hpass : (split_whitespace (clean_words content)).length = 12 ∨
          (split_whitespace (clean_words content)).length = 24 := by
        by_contra hcon
        push_neg at hcon
        exact hwc ⟨hcon.1, hcon.2⟩
      rcases hbad with hbad | ⟨m, hm⟩
      · exact absurd hbad hwc
      · exact ⟨m, by rw [hres, wallet_parse_error C content m hpass hm]⟩

/-- A filesystem whose every path reads as a JSON keypair array, not
mnemonic text. -/
def fsJson : Fs :=
  Fs.mk (FsChain.mk 10 (fun _ => true)) (fun _ => ("signer.txt"))
    (fun _ => some ("[1,2,3,4]"))

/-- Witness for C9: a resolved file holding a JSON keypair array fails
with a mnemonic-validation error. -/
theorem unsupported_variant_unreachable_witness :
    ∃ msg, wallet_from_signer_path fsJson samplePrims ("signer.txt")
      = Except.error (WalletErr.BadMnemonic msg) :=
  unsupported_variant_unreachable.2.2.2 fsJson samplePrims ("signer.txt") ("[1,2,3,4]")
    rfl (Or.inl (by decide))

/-- Eleven whitespace-separated words. -/
def elevenWords : String :=
  "one two three four five six seven eight nine ten eleven"

/-- Twelve whitespace-separated words. -/
def twelveWords : String :=
  "one two three four five six seven eight nine ten eleven twelve"

/-- Counterexample for C3: the code has no distinct word-count error kind.
An 11-word input fails with the `BadMnemonic` constructor — the same
constructor (displayed "invalid mnemonic: …") that a 12-word input
rejected by the mnemonic parser produces — so `InvalidWordCount` is not a
kind separate from `InvalidMnemonic` in this code. -/
theorem word_count_error_kind_counterexample :
    wallet_from_mnemonic_words rejectingPrims elevenWords
      = Except.error (WalletErr.BadMnemonic ("expected 12 or 24 words, got 11"))
  ∧ wallet_from_mnemonic_words rejectingPrims twelveWords
      = Except.error (WalletErr.BadMnemonic ("word not in list")) :=
  ⟨rfl, rfl⟩

/-- C3 as amended: a token count other than 12 and 24 fails with the
`BadMnemonic` variant (the variant shared with mnemonic parse failures)
carrying the actual count in its message, and the failure happens before
any cryptographic work — the result does not depend on the cryptographic
primitives at all; 12- and 24-token inputs pass the check and proceed to
the derivation pipeline. -/
theorem word_count_check_behavior :
    (∀ (C : CryptoPrims) (words : String),
      (split_whitespace (clean_words words)).length ≠ 12 →
      (split_whitespace (clean_words words)).length ≠ 24 →
      wallet_from_mnemonic_words C words = Except.error (WalletErr.BadMnemonic
        (("expected 12 or 24 words, got ")
          ++ toString (split_whitespace (clean_words words)).length))
      ∧ ∀ C2 : CryptoPrims,
          wallet_from_mnemonic_words C words = wallet_from_mnemonic_words C2 words)
  ∧ (∀ (C : CryptoPrims) (words : String),
      (split_whitespace (clean_words words)).length = 12 ∨
        (split_whitespace (clean_words words)).length = 24 →
      wallet_from_mnemonic_words C words = derivePipeline C (clean_words words)) := by
  refine ⟨?_, wallet_wc_pass⟩
  intro C words h1 h2
  refine ⟨wallet_wc_error C words h1 h2, fun C2 => ?_⟩
  rw [wallet_wc_error C words h1 h2, wallet_wc_error C2 words h1 h2]

/-- Witness for the amended C3 at an 11-word input and a 12-word input. -/
theorem word_count_check_behavior_witness :
    (wallet_from_mnemonic_words samplePrims elevenWords
      = Except.error (WalletErr.BadMnemonic ("expected 12 or 24 words, got 11"))
    ∧ ∀ C2 : CryptoPrims, wallet_from_mnemonic_words samplePrims elevenWords
        = wallet_from_mnemonic_words C2 elevenWords)
  ∧ wallet_from_mnemonic_words samplePrims twelveWords
      = derivePipeline samplePrims (clean_words twelveWords) :=
  ⟨word_count_check_behavior.1 samplePrims elevenWords (by decide) (by decide),
   word_count_check_behavior.2 samplePrims twelveWords (Or.inl (by decide))⟩

/-- C5: a 12-token input rejected by the mnemonic parser fails with
`BadMnemonic` carrying the parser's message; in particular this covers
any parser that rejects inputs containing a token outside its wordlist. -/
theorem invalid_mnemonic_error :
    (∀ (C : CryptoPrims) (words m : String),
      (split_whitespace (clean_words words)).length = 12 →
      C.parse_in (clean_words words) = Except.error m →
      wallet_from_mnemonic_words C words = Except.error (WalletErr.BadMnemonic m))
  ∧ (∀ (C : CryptoPrims) (words : String),
      (∀ s, (∃ w ∈ split_whitespace s, w ∉ C.wordlist) →
        ∃ m, C.parse_in s = Except.error m) →
      (split_whitespace (clean_words words)).length = 12 →
      (∃ w ∈ split_whitespace (clean_words words), w ∉ C.wordlist) →
      ∃ m, C.parse_in (clean_words words) = Except.error m ∧
        wallet_from_mnemonic_words C words = Except.error (WalletErr.BadMnemonic m)) := by
  constructor
  · intro C words m hwc hm
    exact wallet_parse_error C words m (Or.inl hwc) hm
  · intro C words hrej hwc hout
    obtain ⟨m, hm⟩ := hrej (clean_words words) hout
    exact ⟨m, hm, wallet_parse_error C words m (Or.inl hwc) hm⟩

/-- Witness for C5: under a parser that rejects out-of-wordlist tokens,
a concrete 12-word phrase with such a token fails with `BadMnemonic`
carrying the parser's message. -/
theorem invalid_mnemonic_error_witness :
    ∃ m, rejectingPrims.parse_in (clean_words twelveWords) = Except.error m ∧
      wallet_from_mnemonic_words rejectingPrims twelveWords
        = Except.error (WalletErr.BadMnemonic m) :=
  invalid_mnemonic_error.2 rejectingPrims twelveWords
    (fun s _ => ⟨("word not in list"), rfl⟩) (by decide)
    ⟨("one"), by decide, by decide⟩

/-- Shape of a successful pipeline run: the wallet's keypair bytes come
from `Keypair::from_bytes` on a 32-byte secret concatenated with its
public key, and the displayed string is the base-58 encoding of the
public key. -/
theorem derivePipeline_ok_shape (C : CryptoPrims) (clean : String) (w : Wallet)
    (h : derivePipeline C clean = Except.ok w) :
    ∃ secret, secret.length = 32 ∧
      C.keypair_from_bytes (secret ++ C.public_from secret) = Except.ok w.keypair ∧
      w.pubkey_bs58 = bs58_encode (C.public_from secret) := by
  unfold derivePipeline at h
  rw [solanaPath_parses] at h
  cases hp : C.parse_in clean with
  | error e => rw [hp] at h; simp at h
  | ok mnemonic =>
    rw [hp] at h
    simp only [] at h
    cases hd : C.derive_key_from_path (C.seed_new mnemonic ("")) Curve.Ed25519 solanaPath with
    | error e => rw [hd] at h; simp at h
    | ok derived =>
      rw [hd] at h
      simp only [] at h
      cases hs : SecretKey.from_bytes derived with
      | error e => rw [hs] at h; simp at h
      | ok secret =>
        rw [hs] at h
        simp only [] at h
        cases hk : C.keypair_from_bytes (secret ++ C.public_from secret) with
        | error e => rw [hk] at h; simp at h
        | ok kp =>
          rw [hk] at h
          simp only [Except.ok.injEq] at h
          subst h
          refine ⟨secret, ?_, hk, rfl⟩
          unfold SecretKey.from_bytes at hs
          by_cases hl : derived.length = 32
          · rw [if_pos hl] at hs
            have hds := Except.ok.inj hs
            rw [← hds]
            exact hl
          · rw [if_neg hl] at hs
            simp at hs

/-- A successful `wallet_from_mnemonic_words` run is a successful
pipeline run on the cleaned text. -/
theorem wallet_ok_pipeline (C : CryptoPrims) (words : String) (w : Wallet)
    (h : wallet_from_mnemonic_words C words = Except.ok w) :
    derivePipeline C (clean_words words) = Except.ok w := by
  by_cases hwc : (split_whitespace (clean_words words)).length ≠ 12 ∧
      (split_whitespace (clean_words words)).length ≠ 24
  · rw [wallet_wc_error C words hwc.1 hwc.2] at h
    simp at h
  · have hpass : (split_whitespace (clean_words words)).length = 12 ∨
        (split_whitespace (clean_words words)).length = 24 := by omega
    rw [wallet_wc_pass C words hpass] at h
    exact h

/-- C1: derivation is deterministic.  The deriver is a pure function of
the mnemonic text: two successful runs on the same text agree byte for
byte on the keypair — which has 64 bytes whenever the external primitives
keep their documented sizes (32-byte public keys, `Keypair::from_bytes`
returning its input bytes) — and agree on the base-58 public key
string. -/
theorem derivation_deterministic (C : CryptoPrims) (words : String) (w1 w2 : Wallet)
    (hpub : ∀ s, (C.public_from s).length = 32)
    (hkp : ∀ b k, C.keypair_from_bytes b = Except.ok k → k = b)
    (h1 : wallet_from_mnemonic_words C words = Except.ok w1)
    (h2 : wallet_from_mnemonic_words C words = Except.ok w2) :
    w1.keypair = w2.keypair ∧ w1.keypair.length = 64 ∧
      w1.pubkey_bs58 = w2.pubkey_bs58 := by
  rw [h1] at h2
  have hw : w1 = w2 := Except.ok.inj h2
  subst hw
  refine ⟨rfl, ?_, rfl⟩
  obtain ⟨secret, hslen, hk, hb⟩ :=
    derivePipeline_ok_shape C (clean_words words) w1 (wallet_ok_pipeline C words w1 h1)
  rw [hkp _ _ hk]
  rw [List.length_append, hslen, hpub secret]

/-- The wallet the sample primitives produce on any 12-word phrase: the
zero keypair and its base-58 rendering (32 ones). -/
def sampleWallet : Wallet :=
  Wallet.mk (List.replicate 64 0) (String.mk (List.replicate 32 ('1')))

/-- Witness for C1 at a concrete phrase and primitives: both runs yield
`sampleWallet`, whose keypair has 64 bytes. -/
theorem derivation_deterministic_witness :
    sampleWallet.keypair = sampleWallet.keypair ∧
      sampleWallet.keypair.length = 64 ∧
      sampleWallet.pubkey_bs58 = sampleWallet.pubkey_bs58 :=
  derivation_deterministic samplePrims twelveWords sampleWallet sampleWallet
    (fun _ => rfl) (fun _ _ h => (Except.ok.inj h).symm) rfl rfl

/-- The derivation pipeline with the path-parse guard removed: the parsed
constant `solanaPath` is used directly and no `Derive` branch exists for
path parsing.  Comparison definition for the unreachability claim. -/
def derivePipeline_path_unguarded (C : CryptoPrims) (clean : String) :
    Except WalletErr Wallet :=
  match C.parse_in clean with
  | Except.error e => Except.error (WalletErr.BadMnemonic e)
  | Except.ok mnemonic =>
    match C.derive_key_from_path (C.seed_new mnemonic ("")) Curve.Ed25519 solanaPath with
    | Except.error e => Except.error (WalletErr.Derive e)
    | Except.ok derived =>
      match SecretKey.from_bytes derived with
      | Except.error e => Except.error (WalletErr.Derive e)
      | Except.ok secret =>
        match C.keypair_from_bytes (secret ++ C.public_from secret) with
        | Except.error e => Except.error (WalletErr.Derive e)
        | Except.ok kp => Except.ok (Wallet.mk kp (bs58_encode (C.public_from secret)))

/-- `wallet_from_mnemonic_words` with the path-parse guard removed. -/
def wallet_from_mnemonic_words_path_unguarded (C : CryptoPrims) (words : String) :
    Except WalletErr Wallet :=
  let clean := clean_words words
  let wc := (split_whitespace clean).length
  if wc ≠ 12 ∧ wc ≠ 24 then
    Except.error (WalletErr.BadMnemonic
      (("expected 12 or 24 words, got ") ++ toString wc))
  else derivePipeline_path_unguarded C clean

/-- C8: the hardcoded constant `m/44'/501'/0'/0'` parses successfully, so
the `Derive` branch guarding the path-parse step is unreachable: the
deriver equals, on every input, its variant with that guard removed. -/
theorem path_parse_never_fails :
    BIP32Path_from_str solanaPathStr = Except.ok solanaPath
  ∧ (∀ (C : CryptoPrims) (clean : String),
      derivePipeline C clean = derivePipeline_path_unguarded C clean)
  ∧ (∀ (C : CryptoPrims) (words : String),
      wallet_from_mnemonic_words C words
        = wallet_from_mnemonic_words_path_unguarded C words) := by
  have hpipe : ∀ (C : CryptoPrims) (clean : String),
      derivePipeline C clean = derivePipeline_path_unguarded C clean := by
    intro C clean
    unfold derivePipeline derivePipeline_path_unguarded
    rw [solanaPath_parses]
  refine ⟨solanaPath_parses, hpipe, ?_⟩
  intro C words
  unfold wallet_from_mnemonic_words wallet_from_mnemonic_words_path_unguarded
  simp only [hpipe]

/-- Whitespace-only prefixes vanish under `dropWhile`. -/
theorem dropWhile_append_all {p : Char → Bool} :
    ∀ (a b : List Char), (∀ c ∈ a, p c = true) →
      (a ++ b).dropWhile p = b.dropWhile p := by
  intro a
  induction a with
  | nil => intro b _; rfl
  | cons c cs ih =>
    intro b h
    have hc : p c = true := h c (by simp)
    rw [List.cons_append, List.dropWhile_cons_of_pos hc]
    exact ih b (fun x hx => h x (by simp [hx]))

/-- A list starting with a non-matching character is unchanged by
`dropWhile`. -/
theorem dropWhile_cons_false {p : Char → Bool} (c : Char) (cs : List Char)
    (h : p c = false) : (c :: cs).dropWhile p = c :: cs :=
  List.dropWhile_cons_of_neg (by simp [h])

/-- Trimming removes exactly the surrounding whitespace: with whitespace
`l` on the left, whitespace `t` on the right, and a body that starts and
ends in non-whitespace, `trimList` returns the body. -/
theorem trimList_sandwich (l t body : List Char)
    (hl : ∀ x ∈ l, rustIsWhitespace x = true)
    (ht : ∀ x ∈ t, rustIsWhitespace x = true)
    (c : Char) (r : List Char) (hbody : body = c :: r)
    (hc : rustIsWhitespace c = false)
    (d : Char) (ds : List Char) (hrev : body.reverse = d :: ds)
    (hd : rustIsWhitespace d = false) :
    trimList (l ++ body ++ t) = body := by
  unfold trimList
  have h1 : (l ++ body ++ t).dropWhile rustIsWhitespace = body ++ t := by
    rw [List.append_assoc, dropWhile_append_all l (body ++ t) hl, hbody,
      List.cons_append]
    exact dropWhile_cons_false c (r ++ t) hc
  rw [h1]
  have h2 : (body ++ t).reverse.dropWhile rustIsWhitespace = body.reverse := by
    rw [List.reverse_append,
      dropWhile_append_all t.reverse body.reverse
        (fun x hx => ht x (List.mem_reverse.mp hx)),
      hrev]
    exact dropWhile_cons_false d ds hd
  rw [h2, List.reverse_reverse]

/-- Trimming an all-whitespace list gives the empty list. -/
theorem trimList_all_ws (l : List Char)
    (h : ∀ x ∈ l, rustIsWhitespace x = true) : trimList l = [] := by
  unfold trimList
  have h1 : l.dropWhile rustIsWhitespace = [] := by
    rw [List.dropWhile_eq_nil_iff]
    exact fun x hx => h x hx
  rw [h1]
  rfl

/-- Join words with a single separator character between them. -/
def joinSep (sep : Char) : List (List Char) → List Char
  | [] => []
  | [w] => w
  | w :: ws => w ++ sep :: joinSep sep ws

/-- A join of words starting with `c :: r` itself starts with `c`. -/
theorem joinSep_head (sep c : Char) (r : List Char) (ws : List (List Char)) :
    ∃ rest, joinSep sep ((c :: r) :: ws) = c :: rest := by
  cases ws with
  | nil => exact ⟨r, rfl⟩
  | cons w ws => exact ⟨r ++ sep :: joinSep sep (w :: ws), rfl⟩

/-- A join of non-empty all-non-whitespace words ends in a
non-whitespace character. -/
theorem joinSep_reverse_head (sep : Char) :
    ∀ ws : List (List Char), ws ≠ [] →
      (∀ w ∈ ws, w ≠ [] ∧ ∀ x ∈ w, rustIsWhitespace x = false) →
      ∃ d ds, (joinSep sep ws).reverse = d :: ds ∧ rustIsWhitespace d = false := by
  intro ws
  induction ws with
  | nil => intro h _; exact absurd rfl h
  | cons w ws ih =>
    intro _ hws
    cases ws with
    | nil =>
      have hw := hws w (by simp)
      obtain ⟨d, ds, hrev⟩ : ∃ d ds, w.reverse = d :: ds := by
        cases hrw : w.reverse with
        | nil => rw [List.reverse_eq_nil_iff] at hrw; exact absurd hrw hw.1
        | cons d ds => exact ⟨d, ds, rfl⟩
      refine ⟨d, ds, hrev, ?_⟩
      have hm : d ∈ w := by
        rw [← List.mem_reverse, hrev]
        simp
      exact hw.2 d hm
    | cons w2 ws2 =>
      obtain ⟨d, ds, hrev, hd⟩ := ih (by simp) (fun x hx => hws x (by simp [hx]))
      refine ⟨d, ds ++ sep :: w.reverse, ?_, hd⟩
      show (w ++ sep :: joinSep sep (w2 :: ws2)).reverse
        = d :: (ds ++ sep :: w.reverse)
      rw [List.reverse_append, List.reverse_cons, hrev]
      simp

/-- Mapping a character substitution through a join. -/
theorem map_joinSep (f : Char → Char) (sep : Char) :
    ∀ ws : List (List Char),
      (joinSep sep ws).map f = joinSep (f sep) (ws.map (List.map f)) := by
  intro ws
  induction ws with
  | nil => rfl
  | cons w ws ih =>
    cases ws with
    | nil => rfl
    | cons w2 ws2 =>
      show (w ++ sep :: joinSep sep (w2 :: ws2)).map f
        = List.map f w ++ f sep :: joinSep (f sep) ((w2 :: ws2).map (List.map f))
      rw [List.map_append, List.map_cons, ih]

/-- Newline substitution fixes a word with no whitespace characters. -/
theorem map_nlToSpace_fix (w : List Char)
    (h : ∀ x ∈ w, rustIsWhitespace x = false) : w.map nlToSpace = w := by
  induction w with
  | nil => rfl
  | cons c cs ih =>
    have hc : ¬ c = '\n' := by
      intro he
      have h1 : rustIsWhitespace c = false := h c (by simp)
      rw [he] at h1
      exact absurd h1 (by decide)
    show nlToSpace c :: cs.map nlToSpace = c :: cs
    rw [ih (fun x hx => h x (by simp [hx]))]
    unfold nlToSpace
    rw [if_neg hc]

/-- Newline substitution fixes a list of whitespace-free words. -/
theorem map_map_nlToSpace_fix (ws : List (List Char))
    (h : ∀ w ∈ ws, w ≠ [] ∧ ∀ x ∈ w, rustIsWhitespace x = false) :
    ws.map (List.map nlToSpace) = ws := by
  induction ws with
  | nil => rfl
  | cons w ws ih =>
    show w.map nlToSpace :: ws.map (List.map nlToSpace) = w :: ws
    rw [map_nlToSpace_fix w (h w (by simp)).2,
      ih (fun x hx => h x (by simp [hx]))]

/-- Normalization of a word sequence joined by any whitespace separator
that the newline substitution sends to a space: surrounding whitespace is
trimmed, and the cleaned text is the space-joined sequence. -/
theorem clean_words_join (sep : Char) (hsep : nlToSpace sep = ' ')
    (ws : List (List Char)) (l t : List Char)
    (hl : ∀ x ∈ l, rustIsWhitespace x = true)
    (ht : ∀ x ∈ t, rustIsWhitespace x = true)
    (hw : ∀ w ∈ ws, w ≠ [] ∧ ∀ x ∈ w, rustIsWhitespace x = false) :
    clean_words (String.mk (l ++ joinSep sep ws ++ t))
      = String.mk (joinSep (' ') ws) := by
  have hcw : ∀ x : List Char,
      clean_words (String.mk x) = String.mk ((trimList x).map nlToSpace) :=
    fun _ => rfl
  rw [hcw]
  cases ws with
  | nil =>
    have hts : trimList (l ++ joinSep sep [] ++ t) = [] := by
      apply trimList_all_ws
      intro x hx
      rcases List.mem_append.mp hx with hx2 | hx2
      · rcases List.mem_append.mp hx2 with hx3 | hx3
        · exact hl x hx3
        · exact absurd hx3 (by simp [joinSep])
      · exact ht x hx2
    rw [hts]
    rfl
  | cons w ws2 =>
    have hwh := hw w (by simp)
    obtain ⟨c, r, hwc⟩ : ∃ c r, w = c :: r := by
      cases w with
      | nil => exact absurd rfl hwh.1
      | cons c r => exact ⟨c, r, rfl⟩
    obtain ⟨rest, hhead⟩ := joinSep_head sep c r ws2
    obtain ⟨d, ds, hrev, hd⟩ := joinSep_reverse_head sep (w :: ws2) (by simp) hw
    have hc : rustIsWhitespace c = false := by
      refine hwh.2 c ?_
      rw [hwc]
      simp
    have htrim : trimList (l ++ joinSep sep (w :: ws2) ++ t)
        = joinSep sep (w :: ws2) :=
      trimList_sandwich l t (joinSep sep (w :: ws2)) hl ht c rest
        (by rw [hwc]; exact hhead) hc d ds hrev hd
    rw [htrim, map_joinSep nlToSpace sep (w :: ws2), hsep,
      map_map_nlToSpace_fix (w :: ws2) hw]

/-- The deriver depends on its input only through the cleaned text. -/
theorem wallet_eq_of_clean_eq (C : CryptoPrims) (a b : String)
    (h : clean_words a = clean_words b) :
    wallet_from_mnemonic_words C a = wallet_from_mnemonic_words C b := by
  unfold wallet_from_mnemonic_words
  rw [h]

/-- C7: normalization invariance.  For any sequence of non-empty
whitespace-free words, the deriver gives the same result — keypair or
error alike — whether the words are separated by single spaces or by
newlines, and whatever surrounding whitespace each variant carries. -/
theorem normalization_invariance (C : CryptoPrims) (ws : List (List Char))
    (l1 t1 l2 t2 : List Char)
    (hw : ∀ w ∈ ws, w ≠ [] ∧ ∀ x ∈ w, rustIsWhitespace x = false)
    (hl1 : ∀ x ∈ l1, rustIsWhitespace x = true)
    (ht1 : ∀ x ∈ t1, rustIsWhitespace x = true)
    (hl2 : ∀ x ∈ l2, rustIsWhitespace x = true)
    (ht2 : ∀ x ∈ t2, rustIsWhitespace x = true) :
    wallet_from_mnemonic_words C (String.mk (l1 ++ joinSep (' ') ws ++ t1))
      = wallet_from_mnemonic_words C (String.mk (l2 ++ joinSep ('\n') ws ++ t2)) := by
  apply wallet_eq_of_clean_eq
  rw [clean_words_join (' ') rfl ws l1 t1 hl1 ht1 hw,
    clean_words_join ('\n') rfl ws l2 t2 hl2 ht2 hw]

/-- Twelve single-letter words, as character lists. -/
def sampleWordsChars : List (List Char) :=
  [['a'], ['b'], ['c'], ['d'], ['e'], ['f'], ['g'], ['h'], ['i'], ['j'], ['k'], ['l']]

/-- Witness for C7 at a concrete word sequence: leading space and
space-separated words versus newline-separated words with a trailing
newline. -/
theorem normalization_invariance_witness :
    wallet_from_mnemonic_words samplePrims
        (String.mk ([' '] ++ joinSep (' ') sampleWordsChars ++ []))
      = wallet_from_mnemonic_words samplePrims
        (String.mk ([] ++ joinSep ('\n') sampleWordsChars ++ ['\n'])) :=
  normalization_invariance samplePrims sampleWordsChars [' '] [] [] ['\n']
    (by decide) (by decide) (by decide) (by decide) (by decide)

end Gmx
